import Mathlib

/-!
Verification of the IronPLC documentation-build fragment:
`docs/extensions/ironplc_problemcode.py` (problem-code registry and the
`problem-summary` directive) and the version-string loader of `docs/conf.py`.

Python strings are modelled as lists of characters (`PyStr`), Python `set`
as `Finset PyStr`, the module-level `dict` `problem_infos` as an association
list where insertion prepends (so a lookup that returns the first match has
exactly the overwrite semantics of a `dict`), and `exit(1)` as the error arm
of `Except` (the process terminates, so nothing past that point runs).
CSV catalogs are modelled at the data-row level: the source skips the header
row with `next(problem_codes)` before the loop, so a catalog value here is
the list of post-header rows, each row being the three positionally-indexed
fields `(row[0], row[1], row[2])` = (code, category, message).
-/

/-- Python strings, modelled as lists of characters. -/
abbrev PyStr := List Char

/-- Embeds a Lean string literal as a `PyStr`. -/
def pystr (s : String) : PyStr := s.data

/-- Models `v.split('.')[0]`: the prefix of a filename before its first
`.` character (the whole string when no dot occurs). -/
def stripExt (v : PyStr) : PyStr := v.takeWhile (fun c => c ≠ '.')

/-- Models `set([v.split('.')[0] for v in listdir(dir)])` for one directory,
given the directory listing as a list of filenames
(`ironplc_problemcode.py` lines 14-15). -/
def topicsOfDir (dir : List PyStr) : Finset PyStr := (dir.map stripExt).toFinset

/-- Models `help_topics = compiler_help_topics.union(extension_help_topics)`
(`ironplc_problemcode.py` line 16), parameterised by the two directory
listings `compiler/problems` and `vscode/problems`. -/
def help_topics (compilerDir vscodeDir : List PyStr) : Finset PyStr :=
  topicsOfDir compilerDir ∪ topicsOfDir vscodeDir

/-- Models the `ProblemCode` class of `ironplc_problemcode.py` lines 19-21:
a record holding a message. -/
structure ProblemCode where
  message : PyStr
deriving DecidableEq

/-- A post-header CSV catalog row: `(row[0], row[1], row[2])` =
(code, category, message). -/
abbrev Row := PyStr × PyStr × PyStr

/-- The `problem_infos` dict, as an association list; insertion prepends and
lookup takes the first match, which gives dict overwrite semantics. -/
abbrev Registry := List (PyStr × ProblemCode)

/-- Models `problem_infos[code] = ProblemCode(row[2])`: dict insertion. -/
def dictInsert (d : Registry) (k : PyStr) (v : ProblemCode) : Registry :=
  (k, v) :: d

/-- Models `problem_infos[code]`, returning `none` where Python raises
`KeyError`. -/
def dictLookup (d : Registry) (k : PyStr) : Option ProblemCode :=
  (d.find? (fun p => p.1 == k)).map (fun p => p.2)

/-- The outcome of `exit(1)`: the line printed to standard output just
before, and the process exit status. -/
structure ExitAbort where
  stdoutLine : PyStr
  status : Nat
deriving DecidableEq

/-- The standard-output line `'Missing help topic for ' + code`
(`ironplc_problemcode.py` line 37). -/
def missingLine (code : PyStr) : PyStr := pystr "Missing help topic for " ++ code

/-- Models the inner loop of `ironplc_problemcode.py` lines 34-39 over the
post-header rows of one catalog: each row's code is checked against
`help_topics`; on a miss the message is printed and the process exits with
status 1; on a hit the registry entry is inserted (overwriting). -/
def loadCatalog (topics : Finset PyStr) : List Row → Registry → Except ExitAbort Registry
  | [], acc => .ok acc
  | (code, _category, message) :: rest, acc =>
    if code ∈ topics then loadCatalog topics rest (dictInsert acc code ⟨message⟩)
    else .error ⟨missingLine code, 1⟩

/-- Models the outer loop of `ironplc_problemcode.py` lines 28-39 over the
configured catalogs, threading the `problem_infos` dict. -/
def loadCatalogs (topics : Finset PyStr) : List (List Row) → Registry → Except ExitAbort Registry
  | [], acc => .ok acc
  | file :: rest, acc =>
    match loadCatalog topics file acc with
    | .ok acc' => loadCatalogs topics rest acc'
    | .error e => .error e

/-- Models the whole module-level load of `ironplc_problemcode.py`:
`problem_infos` starts empty and the configured catalogs are processed
in order. -/
def moduleInit (topics : Finset PyStr) (catalogs : List (List Row)) : Except ExitAbort Registry :=
  loadCatalogs topics catalogs []

/-- Models the `definitions` list of `ironplc_problemcode.py` lines 23-26:
the compiler catalog first, the vscode catalog second. -/
def definitionsOrder (compilerCatalog vscodeCatalog : List Row) : List (List Row) :=
  [compilerCatalog, vscodeCatalog]

/-- The module-level load with the configured catalog order: compiler
catalog first, vscode catalog second, over the documented-topics set
derived from the two directories. -/
def moduleInitIronplc (compilerDir vscodeDir : List PyStr)
    (compilerCatalog vscodeCatalog : List Row) : Except ExitAbort Registry :=
  moduleInit (help_topics compilerDir vscodeDir)
    (definitionsOrder compilerCatalog vscodeCatalog)

/-- The registry observable by any later render call. After `exit(1)` the
process is gone before the module finishes loading, so on the error arm no
entries are ever exposed. -/
def visibleRegistry (r : Except ExitAbort Registry) : Registry :=
  match r with
  | .ok reg => reg
  | .error _ => []

/-- Shallow embedding of the docutils node constructors used by
`ProblemSummary` (`strong`, `term`, `paragraph`, `definition`,
`definition_list_item`, `definition_list`); text payloads are `PyStr`. -/
inductive DNode where
  | strong : PyStr → DNode
  | term : List DNode → DNode
  | paragraph : PyStr → DNode
  | definition : List DNode → DNode
  | definition_list_item : List DNode → DNode
  | definition_list : List DNode → DNode

/-- Models `ProblemSummary.make_item` (`ironplc_problemcode.py` lines 54-60):
a definition-list item whose term is a strong key and whose definition is a
paragraph holding the value. -/
def make_item (key value : PyStr) : DNode :=
  .definition_list_item
    [.term [.strong key], .definition [.paragraph value]]

/-- Models `ProblemSummary.run` (`ironplc_problemcode.py` lines 43-52) with
the single required directive argument `code`: looks the code up in
`problem_infos` (a `KeyError`, modelled as `none`, when absent) and returns
the one-element list holding the two-item definition list. -/
def ProblemSummary_run (reg : Registry) (code : PyStr) : Option (List DNode) :=
  match dictLookup reg code with
  | none => none
  | some info =>
    some [.definition_list
      [make_item (pystr "Code") code, make_item (pystr "Message") info.message]]

/-- A traversal of the documentation sources rendering one directive per
listed code, in order. -/
def renderSeq (reg : Registry) (codes : List PyStr) : List (Option (List DNode)) :=
  codes.map (ProblemSummary_run reg)

/-!
The version-string loader of `docs/conf.py` lines 88-97. File contents are
lists of byte values. Decoding is delegated in the source to the Python
codecs (`bytes.decode('utf-16le')`, `bytes.decode('utf-8')`); those are
modelled here as explicit strict decoders returning `none` exactly where
the codec raises `UnicodeDecodeError`.
-/

/-- Models `codecs.BOM_UTF16_LE`, the two bytes `0xFF 0xFE`. -/
def BOM_UTF16_LE : List Nat := [0xFF, 0xFE]

/-- Models Python `str.isspace` on one character: the Unicode whitespace
set used by `str.strip()` with no argument. -/
def pyIsSpace (c : Char) : Bool :=
  [9, 10, 11, 12, 13, 0x1C, 0x1D, 0x1E, 0x1F, 32, 0x85, 0xA0, 0x1680,
    0x2028, 0x2029, 0x202F, 0x205F, 0x3000].contains c.toNat
  || (0x2000 ≤ c.toNat && c.toNat ≤ 0x200A)

/-- Models Python `str.strip()`: removes leading and trailing whitespace
characters. -/
def pyStrip (s : PyStr) : PyStr :=
  ((s.dropWhile pyIsSpace).reverse.dropWhile pyIsSpace).reverse

/-- Models the strict Python codec `bytes.decode('utf-8')`: standard UTF-8,
rejecting continuation errors, overlong forms, surrogates and code points
above U+10FFFF; `none` where the codec raises. -/
def utf8Decode : List Nat → Option PyStr
  | [] => some []
  | b :: rest =>
    if b ≤ 0x7F then (utf8Decode rest).map (fun s => Char.ofNat b :: s)
    else if 0xC2 ≤ b && b ≤ 0xDF then
      match rest with
      | b1 :: rest1 =>
        if 0x80 ≤ b1 && b1 ≤ 0xBF then
          (utf8Decode rest1).map (fun s => Char.ofNat ((b - 0xC0) * 0x40 + (b1 - 0x80)) :: s)
        else none
      | [] => none
    else if 0xE0 ≤ b && b ≤ 0xEF then
      match rest with
      | b1 :: b2 :: rest2 =>
        let lo1 : Nat := if b = 0xE0 then 0xA0 else 0x80
        let hi1 : Nat := if b = 0xED then 0x9F else 0xBF
        if lo1 ≤ b1 && b1 ≤ hi1 && 0x80 ≤ b2 && b2 ≤ 0xBF then
          (utf8Decode rest2).map
            (fun s => Char.ofNat ((b - 0xE0) * 0x1000 + (b1 - 0x80) * 0x40 + (b2 - 0x80)) :: s)
        else none
      | _ => none
    else if 0xF0 ≤ b && b ≤ 0xF4 then
      match rest with
      | b1 :: b2 :: b3 :: rest3 =>
        let lo1 : Nat := if b = 0xF0 then 0x90 else 0x80
        let hi1 : Nat := if b = 0xF4 then 0x8F else 0xBF
        if lo1 ≤ b1 && b1 ≤ hi1 && 0x80 ≤ b2 && b2 ≤ 0xBF && 0x80 ≤ b3 && b3 ≤ 0xBF then
          (utf8Decode rest3).map
            (fun s => Char.ofNat
              ((b - 0xF0) * 0x40000 + (b1 - 0x80) * 0x1000 + (b2 - 0x80) * 0x40 + (b3 - 0x80)) :: s)
        else none
      | _ => none
    else none

/-- Models the strict Python codec `bytes.decode('utf-16le')`: little-endian
16-bit units, combining surrogate pairs; `none` on truncated data or a lone
surrogate, where the codec raises. -/
def utf16leDecode : List Nat → Option PyStr
  | [] => some []
  | [_] => none
  | lo :: hi :: rest =>
    let u := lo + 0x100 * hi
    if u < 0xD800 || 0xE000 ≤ u then
      (utf16leDecode rest).map (fun s => Char.ofNat u :: s)
    else if u ≤ 0xDBFF then
      match rest with
      | lo2 :: hi2 :: rest2 =>
        let u2 := lo2 + 0x100 * hi2
        if 0xDC00 ≤ u2 && u2 ≤ 0xDFFF then
          (utf16leDecode rest2).map
            (fun s => Char.ofNat (0x10000 + (u - 0xD800) * 0x400 + (u2 - 0xDC00)) :: s)
        else none
      | _ => none
    else none

/-- Models `docs/conf.py` lines 88-97: read the `VERSION` file bytes; when
they start with `codecs.BOM_UTF16_LE` drop the mark and decode the rest as
UTF-16LE, otherwise decode the bytes as UTF-8; the result is stripped of
surrounding whitespace. `none` models a `UnicodeDecodeError` aborting the
configuration. -/
def loadVersion (encoded_text : List Nat) : Option PyStr :=
  if BOM_UTF16_LE.isPrefixOf encoded_text then
    (utf16leDecode (encoded_text.drop BOM_UTF16_LE.length)).map pyStrip
  else
    (utf8Decode encoded_text).map pyStrip

/-- The registry entry inserted for one validated catalog row. -/
def rowEntry (row : Row) : PyStr × ProblemCode := (row.1, ⟨row.2.2⟩)

theorem loadCatalog_ok_eq (topics : Finset PyStr) :
    ∀ (rows : List Row) (acc r : Registry),
      loadCatalog topics rows acc = .ok r → r = (rows.map rowEntry).reverse ++ acc := by
  intro rows
  induction rows with
  | nil => intro acc r h; simp [loadCatalog] at h; simp [h.symm]
  | cons row rest ih =>
    obtain ⟨code, category, message⟩ := row
    intro acc r h
    by_cases hc : code ∈ topics
    · simp only [loadCatalog, if_pos hc] at h
      have hr := ih (dictInsert acc code ⟨message⟩) r h
      simp [hr, rowEntry, dictInsert, List.append_assoc]
    · simp [loadCatalog, if_neg hc] at h

theorem loadCatalog_ok_of_all (topics : Finset PyStr) :
    ∀ (rows : List Row) (acc : Registry), (∀ row ∈ rows, row.1 ∈ topics) →
      loadCatalog topics rows acc = .ok ((rows.map rowEntry).reverse ++ acc) := by
  intro rows
  induction rows with
  | nil => intro acc _; simp [loadCatalog]
  | cons row rest ih =>
    obtain ⟨code, category, message⟩ := row
    intro acc hall
    have hc : code ∈ topics := hall (code, category, message) (List.mem_cons_self _ _)
    have hrest : ∀ row ∈ rest, row.1 ∈ topics :=
      fun row hrow => hall row (List.mem_cons_of_mem _ hrow)
    simp only [loadCatalog, if_pos hc]
    rw [ih (dictInsert acc code ⟨message⟩) hrest]
    simp [rowEntry, dictInsert, List.append_assoc]

theorem loadCatalog_error_iff (topics : Finset PyStr) :
    ∀ (rows : List Row) (acc : Registry) (e : ExitAbort),
      loadCatalog topics rows acc = .error e ↔
        ∃ row, rows.find? (fun x => !(decide (x.1 ∈ topics))) = some row ∧
          e = ⟨missingLine row.1, 1⟩ := by
  intro rows
  induction rows with
  | nil => intro acc e; simp [loadCatalog]
  | cons row rest ih =>
    obtain ⟨code, category, message⟩ := row
    intro acc e
    by_cases hc : code ∈ topics
    · rw [List.find?_cons_of_neg _ (by simp [hc])]
      simp only [loadCatalog, if_pos hc]
      exact ih (dictInsert acc code ⟨message⟩) e
    · rw [List.find?_cons_of_pos _ (by simp [hc])]
      simp only [loadCatalog, if_neg hc]
      constructor
      · intro h
        exact ⟨(code, category, message), rfl, (Except.error.injEq _ _).mp h |>.symm⟩
      · rintro ⟨row, hrow, he⟩
        cases hrow
        simp [he]

theorem loadCatalog_append (topics : Finset PyStr) :
    ∀ (xs ys : List Row) (acc : Registry),
      loadCatalog topics (xs ++ ys) acc =
        match loadCatalog topics xs acc with
        | .ok acc2 => loadCatalog topics ys acc2
        | .error e => .error e := by
  intro xs
  induction xs with
  | nil => intro ys acc; simp [loadCatalog]
  | cons row rest ih =>
    obtain ⟨code, category, message⟩ := row
    intro ys acc
    by_cases hc : code ∈ topics
    · simp only [List.cons_append, loadCatalog, if_pos hc]
      exact ih ys (dictInsert acc code ⟨message⟩)
    · simp only [List.cons_append, loadCatalog, if_neg hc]

theorem loadCatalogs_eq_join (topics : Finset PyStr) :
    ∀ (files : List (List Row)) (acc : Registry),
      loadCatalogs topics files acc = loadCatalog topics files.flatten acc := by
  intro files
  induction files with
  | nil => intro acc; simp [loadCatalogs, List.flatten, loadCatalog]
  | cons file rest ih =>
    intro acc
    rw [List.flatten_cons, loadCatalog_append]
    simp only [loadCatalogs]
    cases loadCatalog topics file acc with
    | ok acc2 => exact ih acc2
    | error e => rfl

theorem moduleInitIronplc_eq (cd vd : List PyStr) (cc vc : List Row) :
    moduleInitIronplc cd vd cc vc =
      loadCatalog (help_topics cd vd) (cc ++ vc) [] := by
  rw [moduleInitIronplc, moduleInit, definitionsOrder, loadCatalogs_eq_join]
  simp [List.flatten]

theorem help_topics_mem (cd vd : List PyStr) (c : PyStr) :
    c ∈ help_topics cd vd ↔ (∃ f ∈ cd, stripExt f = c) ∨ ∃ f ∈ vd, stripExt f = c := by
  simp [help_topics, topicsOfDir, Finset.mem_union, List.mem_toFinset, List.mem_map]

theorem dictLookup_ok_registry (rows : List Row) (c : PyStr) :
    dictLookup ((rows.map rowEntry).reverse ++ []) c =
      (rows.reverse.find? (fun x => x.1 == c)).map (fun row => ⟨row.2.2⟩) := by
  rw [List.append_nil, dictLookup, ← List.map_reverse, List.find?_map]
  have hp : (fun (p : PyStr × ProblemCode) => p.1 == c) ∘ rowEntry =
      fun (x : Row) => x.1 == c := rfl
  rw [hp, Option.map_map]
  rfl

theorem loadCatalog_ok_mem (topics : Finset PyStr) :
    ∀ (rows : List Row) (acc r : Registry), loadCatalog topics rows acc = .ok r →
      ∀ row ∈ rows, row.1 ∈ topics := by
  intro rows
  induction rows with
  | nil => intro acc r _ row hrow; simp at hrow
  | cons hd rest ih =>
    obtain ⟨code, category, message⟩ := hd
    intro acc r h row hrow
    by_cases hc : code ∈ topics
    · simp only [loadCatalog, if_pos hc] at h
      rcases List.mem_cons.mp hrow with heq | hmem
      · subst heq; exact hc
      · exact ih (dictInsert acc code ⟨message⟩) r h row hmem
    · simp [loadCatalog, if_neg hc] at h

/-- C1: every code appearing in any row of either configured catalog is a
member of the documented-topics set whenever the module-level load
completes without terminating the process (returns `.ok`); the registry is
never silently incomplete. -/
theorem claim_C1 (cd vd : List PyStr) (cc vc : List Row) (r : Registry)
    (h : moduleInitIronplc cd vd cc vc = .ok r) :
    ∀ row : Row, row ∈ cc ∨ row ∈ vc → row.1 ∈ help_topics cd vd := by
  intro row hrow
  rw [moduleInitIronplc_eq] at h
  exact loadCatalog_ok_mem _ _ _ _ h row (List.mem_append.mpr hrow)

/-- Witness for C1 at a concrete successful load. -/
theorem claim_C1_witness :
    (moduleInitIronplc [pystr "E001.rst"] [pystr "X.md"]
        [(pystr "E001", pystr "Category", pystr "Msg1")] [] =
      .ok [(pystr "E001", ⟨pystr "Msg1"⟩)]) ∧
    pystr "E001" ∈ help_topics [pystr "E001.rst"] [pystr "X.md"] :=
  ⟨rfl, claim_C1 [pystr "E001.rst"] [pystr "X.md"]
      [(pystr "E001", pystr "Category", pystr "Msg1")] []
      [(pystr "E001", ⟨pystr "Msg1"⟩)] rfl
      (pystr "E001", pystr "Category", pystr "Msg1") (Or.inl (by simp))⟩

/-- C2 (amended): the module-level load terminates the process with a
failure status iff some catalog row's code is absent from the
documented-topics set; on failure the single line written to standard
output names the first such row's code, in catalog processing order, and
the exit status is 1, which is non-zero. -/
theorem claim_C2 (cd vd : List PyStr) (cc vc : List Row) :
    ((∃ e, moduleInitIronplc cd vd cc vc = .error e) ↔
      ∃ row ∈ cc ++ vc, row.1 ∉ help_topics cd vd) ∧
    ∀ e, moduleInitIronplc cd vd cc vc = .error e →
      ∃ row, (cc ++ vc).find? (fun x => !(decide (x.1 ∈ help_topics cd vd))) = some row ∧
        row ∈ cc ++ vc ∧ row.1 ∉ help_topics cd vd ∧
        e.stdoutLine = missingLine row.1 ∧ e.status = 1 ∧ e.status ≠ 0 := by
  constructor
  · constructor
    · rintro ⟨e, he⟩
      rw [moduleInitIronplc_eq] at he
      obtain ⟨row, hfind, -⟩ := (loadCatalog_error_iff _ _ _ _).mp he
      refine ⟨row, List.mem_of_find?_eq_some hfind, ?_⟩
      simpa using List.find?_some hfind
    · rintro ⟨row, hmem, hbad⟩
      have hsome : ((cc ++ vc).find?
          (fun x => !(decide (x.1 ∈ help_topics cd vd)))).isSome := by
        rw [List.find?_isSome]
        exact ⟨row, hmem, by simpa using hbad⟩
      obtain ⟨row0, hrow0⟩ := Option.isSome_iff_exists.mp hsome
      refine ⟨⟨missingLine row0.1, 1⟩, ?_⟩
      rw [moduleInitIronplc_eq]
      exact (loadCatalog_error_iff _ _ _ _).mpr ⟨row0, hrow0, rfl⟩
  · intro e he
    rw [moduleInitIronplc_eq] at he
    obtain ⟨row, hfind, heq⟩ := (loadCatalog_error_iff _ _ _ _).mp he
    subst heq
    exact ⟨row, hfind, List.mem_of_find?_eq_some hfind,
      by simpa using List.find?_some hfind, rfl, rfl, by simp⟩

/-- Counterexample to C2 as literally stated: with empty directories and a
catalog holding two rows with undocumented codes `E098` then `E099`, the
row with code `E099` has a code outside the documented-topics set, yet the
one line written before the process exits names `E098` and does not
mention `E099` anywhere. -/
theorem claim_C2_counterexample :
    (moduleInitIronplc [] []
        [(pystr "E098", pystr "Cat", pystr "M1"),
          (pystr "E099", pystr "Cat", pystr "M2")] [] =
      .error ⟨missingLine (pystr "E098"), 1⟩) ∧
    (pystr "E099", pystr "Cat", pystr "M2") ∈
      ([(pystr "E098", pystr "Cat", pystr "M1"),
        (pystr "E099", pystr "Cat", pystr "M2")] : List Row) ∧
    pystr "E099" ∉ help_topics [] [] ∧
    missingLine (pystr "E098") ≠ missingLine (pystr "E099") ∧
    ¬ pystr "E099" <:+: missingLine (pystr "E098") :=
  ⟨rfl, by simp, by decide, by decide, by decide⟩

/-- Witness for C2 at a concrete failing load. -/
theorem claim_C2_witness :
    ∃ row, ([(pystr "E099", pystr "Cat", pystr "M")] ++ ([] : List Row)).find?
        (fun x => !(decide (x.1 ∈ help_topics [] []))) = some row ∧
      row ∈ [(pystr "E099", pystr "Cat", pystr "M")] ++ ([] : List Row) ∧
      row.1 ∉ help_topics [] [] ∧
      (ExitAbort.mk (missingLine (pystr "E099")) 1).stdoutLine = missingLine row.1 ∧
      (ExitAbort.mk (missingLine (pystr "E099")) 1).status = 1 ∧
      (ExitAbort.mk (missingLine (pystr "E099")) 1).status ≠ 0 :=
  (claim_C2 [] [] [(pystr "E099", pystr "Cat", pystr "M")] []).2
    ⟨missingLine (pystr "E099"), 1⟩ rfl

/-- C3: when the same code has rows in both catalogs and the load
succeeds, the registry's entry for that code is the message of the last
row bearing it in the vscode catalog, the catalog processed second per the
configured `definitions` order; the compiler catalog's entry is silently
overwritten. -/
theorem claim_C3 (cd vd : List PyStr) (cc vc : List Row) (r : Registry) (c : PyStr)
    (hok : moduleInitIronplc cd vd cc vc = .ok r)
    (_hcc : ∃ row ∈ cc, row.1 = c) (hvc : ∃ row ∈ vc, row.1 = c) :
    ∃ row, vc.reverse.find? (fun x => x.1 == c) = some row ∧ row.1 = c ∧
      dictLookup r c = some ⟨row.2.2⟩ := by
  rw [moduleInitIronplc_eq] at hok
  have hreq := loadCatalog_ok_eq _ _ _ _ hok
  subst hreq
  rw [dictLookup_ok_registry]
  have hsome : (vc.reverse.find? (fun x => x.1 == c)).isSome := by
    rw [List.find?_isSome]
    obtain ⟨row, hrow, hc⟩ := hvc
    exact ⟨row, List.mem_reverse.mpr hrow, by simp [hc]⟩
  obtain ⟨row0, hrow0⟩ := Option.isSome_iff_exists.mp hsome
  have hfind : (cc ++ vc).reverse.find? (fun x => x.1 == c) = some row0 := by
    rw [List.reverse_append, List.find?_append, hrow0]
    rfl
  refine ⟨row0, hrow0, by simpa using List.find?_some hrow0, ?_⟩
  rw [hfind]
  rfl

/-- Witness for C3: both catalogs define `E001`; the vscode message wins. -/
theorem claim_C3_witness :
    ∃ row, ([(pystr "E001", pystr "Cat", pystr "MsgVSCode")] : List Row).reverse.find?
        (fun x => x.1 == pystr "E001") = some row ∧ row.1 = pystr "E001" ∧
      dictLookup [(pystr "E001", ⟨pystr "MsgVSCode"⟩), (pystr "E001", ⟨pystr "MsgCompiler"⟩)]
        (pystr "E001") = some ⟨row.2.2⟩ :=
  claim_C3 [pystr "E001.rst"] [] [(pystr "E001", pystr "Cat", pystr "MsgCompiler")]
    [(pystr "E001", pystr "Cat", pystr "MsgVSCode")]
    [(pystr "E001", ⟨pystr "MsgVSCode"⟩), (pystr "E001", ⟨pystr "MsgCompiler"⟩)]
    (pystr "E001") rfl
    ⟨(pystr "E001", pystr "Cat", pystr "MsgCompiler"), by simp, rfl⟩
    ⟨(pystr "E001", pystr "Cat", pystr "MsgVSCode"), by simp, rfl⟩

/-- C4: for a code present in the registry, `ProblemSummary.run` returns a
single definition list of exactly two items, in order a "Code" item with
the raw code string and a "Message" item with the registered message
rendered as a paragraph; the embedding is a pure function, matching the
source, which only constructs nodes. -/
theorem claim_C4 (reg : Registry) (code : PyStr) (entry : ProblemCode)
    (h : dictLookup reg code = some entry) :
    ∃ items : List DNode,
      ProblemSummary_run reg code = some [DNode.definition_list items] ∧
      items = [make_item (pystr "Code") code, make_item (pystr "Message") entry.message] ∧
      items.length = 2 := by
  refine ⟨_, ?_, rfl, rfl⟩
  simp [ProblemSummary_run, h]

/-- Witness for C4 at a concrete registry. -/
theorem claim_C4_witness :
    ∃ items : List DNode,
      ProblemSummary_run [(pystr "E001", ⟨pystr "Msg1"⟩)] (pystr "E001") =
        some [DNode.definition_list items] ∧
      items = [make_item (pystr "Code") (pystr "E001"),
        make_item (pystr "Message") (ProblemCode.mk (pystr "Msg1")).message] ∧
      items.length = 2 :=
  claim_C4 [(pystr "E001", ⟨pystr "Msg1"⟩)] (pystr "E001") ⟨pystr "Msg1"⟩ rfl

/-- C5: when the module-level load exits the process, the registry visible
to any later render call is empty: `exit(1)` fires before the module
finishes loading, so no partial registry is ever exposed. -/
theorem claim_C5 (cd vd : List PyStr) (cc vc : List Row) (e : ExitAbort)
    (h : moduleInitIronplc cd vd cc vc = .error e) :
    visibleRegistry (moduleInitIronplc cd vd cc vc) = [] ∧
    ∀ c, dictLookup (visibleRegistry (moduleInitIronplc cd vd cc vc)) c = none := by
  rw [h]
  exact ⟨rfl, fun c => rfl⟩

/-- Witness for C5 at a concrete failing load. -/
theorem claim_C5_witness :
    visibleRegistry (moduleInitIronplc [] [] [(pystr "E042", pystr "Cat", pystr "M")] []) = [] ∧
    ∀ c, dictLookup
      (visibleRegistry (moduleInitIronplc [] [] [(pystr "E042", pystr "Cat", pystr "M")] [])) c
        = none :=
  claim_C5 [] [] [(pystr "E042", pystr "Cat", pystr "M")] []
    ⟨missingLine (pystr "E042"), 1⟩ rfl

/-- C6: for a code absent from the registry, `ProblemSummary.run` fails
with a missing-key error (modelled as `none`): no default message is
synthesized and no content is rendered. -/
theorem claim_C6 (reg : Registry) (code : PyStr) (h : dictLookup reg code = none) :
    ProblemSummary_run reg code = none := by
  simp [ProblemSummary_run, h]

/-- Witness for C6 at the empty registry. -/
theorem claim_C6_witness :
    dictLookup [] (pystr "E404") = none ∧ ProblemSummary_run [] (pystr "E404") = none :=
  ⟨rfl, claim_C6 [] (pystr "E404") rfl⟩

/-- C7: the documented-topics set is exactly the union of the
extension-stripped base names of the two directory listings: a code is a
member iff some filename of either directory strips to it. -/
theorem claim_C7 (cd vd : List PyStr) (c : PyStr) :
    c ∈ help_topics cd vd ↔ (∃ f ∈ cd, stripExt f = c) ∨ ∃ f ∈ vd, stripExt f = c :=
  help_topics_mem cd vd c

/-- Witness for C7 at concrete directory listings. -/
theorem claim_C7_witness :
    pystr "E001" ∈ help_topics [pystr "E001.md"] [pystr "other.txt"] :=
  (claim_C7 [pystr "E001.md"] [pystr "other.txt"] (pystr "E001")).mpr
    (Or.inl ⟨pystr "E001.md", by simp, by decide⟩)

/-- C9: renders are pure reads of the registry, so a traversal rendering a
sequence of codes gives structurally identical output at any two positions
holding the same code, independently of the renders in between. -/
theorem claim_C9 (reg : Registry) (codes : List PyStr) (i j : Nat)
    (h : codes[i]? = codes[j]?) :
    (renderSeq reg codes)[i]? = (renderSeq reg codes)[j]? := by
  rw [renderSeq, List.getElem?_map, List.getElem?_map, h]

/-- Witness for C9: positions 0 and 2 of a concrete traversal render the
same code and yield the same output. -/
theorem claim_C9_witness :
    [pystr "E001", pystr "E002", pystr "E001"][0]? =
      [pystr "E001", pystr "E002", pystr "E001"][2]? ∧
    (renderSeq [(pystr "E001", ⟨pystr "Msg1"⟩)]
        [pystr "E001", pystr "E002", pystr "E001"])[0]? =
      (renderSeq [(pystr "E001", ⟨pystr "Msg1"⟩)]
        [pystr "E001", pystr "E002", pystr "E001"])[2]? :=
  ⟨rfl, claim_C9 [(pystr "E001", ⟨pystr "Msg1"⟩)]
    [pystr "E001", pystr "E002", pystr "E001"] 0 2 rfl⟩

/-- C10: the code a filename contributes is the prefix before the first
`.`, not the last: `E001.en.rst` contributes `E001` (not `E001.en`), a
dot-prefixed filename such as `.gitkeep` contributes the empty string, and
whenever either directory holds a dot-prefixed filename the empty string
is a documented topic, so a catalog row with an empty code field passes
the load-time check. -/
theorem claim_C10 :
    stripExt (pystr "E001.en.rst") = pystr "E001" ∧
    stripExt (pystr "E001.en.rst") ≠ pystr "E001.en" ∧
    stripExt (pystr ".gitkeep") = pystr "" ∧
    ∀ (cd vd : List PyStr) (f : PyStr), (f ∈ cd ∨ f ∈ vd) → (∃ rest, f = '.' :: rest) →
      pystr "" ∈ help_topics cd vd ∧
      ∀ (category message : PyStr) (acc : Registry),
        loadCatalog (help_topics cd vd) [(pystr "", category, message)] acc =
          .ok (dictInsert acc (pystr "") ⟨message⟩) := by
  refine ⟨by decide, by decide, by decide, ?_⟩
  rintro cd vd f hf ⟨rest, hrest⟩
  have hstrip : stripExt f = pystr "" := by
    subst hrest
    rfl
  have hmem : pystr "" ∈ help_topics cd vd := by
    rw [help_topics_mem]
    cases hf with
    | inl h => exact Or.inl ⟨f, h, hstrip⟩
    | inr h => exact Or.inr ⟨f, h, hstrip⟩
  refine ⟨hmem, fun category message acc => ?_⟩
  simp [loadCatalog, hmem]

/-- Witness for C10: a directory holding `.gitkeep` makes the empty code
pass validation. -/
theorem claim_C10_witness :
    pystr "" ∈ help_topics [pystr ".gitkeep"] [] ∧
    ∀ (category message : PyStr) (acc : Registry),
      loadCatalog (help_topics [pystr ".gitkeep"] []) [(pystr "", category, message)] acc =
        .ok (dictInsert acc (pystr "") ⟨message⟩) :=
  claim_C10.2.2.2 [pystr ".gitkeep"] [] (pystr ".gitkeep") (Or.inl (by simp))
    ⟨pystr "gitkeep", rfl⟩

/-- C8: the version loader decodes file bytes without the UTF-16LE
byte-order mark as UTF-8 and returns the decoded text stripped of
surrounding whitespace; bytes beginning with the mark have it removed and
the remainder is decoded as UTF-16LE, then stripped the same way. -/
theorem claim_C8 (encoded_text : List Nat) :
    (BOM_UTF16_LE.isPrefixOf encoded_text = false →
      loadVersion encoded_text = (utf8Decode encoded_text).map pyStrip) ∧
    (BOM_UTF16_LE.isPrefixOf encoded_text = true →
      loadVersion encoded_text =
        (utf16leDecode (encoded_text.drop 2)).map pyStrip) := by
  constructor
  · intro h
    rw [loadVersion, if_neg (by simp [h])]
  · intro h
    rw [loadVersion, if_pos h]
    rfl

/-- Witness for C8: a plain UTF-8 file and a BOM-marked UTF-16LE file both
yield the trimmed version string. -/
theorem claim_C8_witness :
    (BOM_UTF16_LE.isPrefixOf [32, 49, 46, 48, 10] = false ∧
      loadVersion [32, 49, 46, 48, 10] = (utf8Decode [32, 49, 46, 48, 10]).map pyStrip ∧
      loadVersion [32, 49, 46, 48, 10] = some (pystr "1.0")) ∧
    (BOM_UTF16_LE.isPrefixOf [0xFF, 0xFE, 49, 0, 46, 0, 48, 0, 10, 0] = true ∧
      loadVersion [0xFF, 0xFE, 49, 0, 46, 0, 48, 0, 10, 0] =
        (utf16leDecode ([0xFF, 0xFE, 49, 0, 46, 0, 48, 0, 10, 0].drop 2)).map pyStrip ∧
      loadVersion [0xFF, 0xFE, 49, 0, 46, 0, 48, 0, 10, 0] = some (pystr "1.0")) :=
  ⟨⟨rfl, (claim_C8 [32, 49, 46, 48, 10]).1 rfl, by decide⟩,
    ⟨rfl, (claim_C8 [0xFF, 0xFE, 49, 0, 46, 0, 48, 0, 10, 0]).2 rfl, by decide⟩⟩
